import Mathlib

/-!
Shallow embedding of `packages/cloudflare/src/utils/generate-routes.ts`
(ascorbic/adapters): the route-segment parser (`getParts`), the pattern
compiler (`segmentsToCfSyntax`), the specificity comparator (`sort`), the
redundancy eliminator (`deduplicateInPlace` and the surrounding pass), and
the manifest selector (the default export).  JavaScript strings are
modelled as Lean `String`/`List Char`; the regular expressions appearing
in the source are modelled operationally, following the backtracking
semantics of the concrete patterns involved.
-/

namespace CFRoutes

/-- JS `.` (no `s` flag): any character except the four line terminators. -/
def dotOk (c : Char) : Bool :=
  !(c == '\n' || c == '\r' || c == Char.ofNat 0x2028 || c == Char.ofNat 0x2029)

/-- JS `[\w$]`: ASCII word characters plus the dollar sign. -/
def wordOk (c : Char) : Bool :=
  ('a' ≤ c && c ≤ 'z') || ('A' ≤ c && c ≤ 'Z') || ('0' ≤ c && c ≤ '9')
    || c == '_' || c == '$'

/-- `RoutePart` from the astro route data consumed by the adapter. -/
structure RoutePart where
  content : String
  dynamic : Bool
  spread : Bool
deriving DecidableEq, Repr

/-- Route types distinguished by the manifest selector. -/
inductive RouteType where
  | page
  | endpoint
  | redirect
deriving DecidableEq, Repr

/-- The fields of astro's `RouteData` that `generate-routes.ts` reads. -/
structure Route where
  segments : List (List RoutePart)
  type : RouteType
  prerender : Bool
  pathname : String
deriving DecidableEq, Repr

/-- The fields of `AstroConfig` that the route generation reads:
`config.base` and `config.build.assetsPrefix` (here `assetsPfx`). -/
structure Config where
  base : String
  assetsPfx : Option String
deriving DecidableEq, Repr

/-- The `_routes.json` payload written by the manifest selector. -/
structure Manifest where
  version : Nat
  «include» : List String
  exclude : List String
deriving DecidableEq, Repr

/-- Modelled from the spec: `removeLeadingForwardSlash` lives in
`src/utils/assets.ts`, which is not part of the provided sources; the spec
describes the base path "with leading/trailing separators stripped".  A
leading slash, when present, is dropped. -/
def removeLeadingForwardSlash (s : String) : String :=
  match s.data with
  | '/' :: rest => ⟨rest⟩
  | _ => s

/-- Modelled from the spec: `removeTrailingForwardSlash` lives in
`src/utils/assets.ts`, which is not part of the provided sources; the spec
describes the base path "with leading/trailing separators stripped".  A
trailing slash, when present, is dropped. -/
def removeTrailingForwardSlash (s : String) : String :=
  match s.data.reverse with
  | '/' :: rest => ⟨rest.reverse⟩
  | _ => s

/-!
### The split regex of `getParts`

`part.split(/\[(.+?\(.+?\)|.+?)\]/)` scans for the leftmost match of
`\[` (branch one: `.+?\(.+?\)`, else branch two: `.+?`) `\]`, with the
ordered-alternation and lazy-quantifier backtracking of JS regexes.
The functions below operationalize that search on `List Char`.
-/

/-- Inner part of branch one after its `\(`: lazily scan for the first `)`
that is immediately followed by `]`; characters skipped over must be
matchable by `.`.  Returns the consumed characters (ending in `)`) and the
remainder after the closing `]`. -/
def b1innerFind : List Char → Option (List Char × List Char)
  | [] => none
  | c :: cs =>
    if c = ')' ∧ cs.head? = some ']' then some ([')'], cs.tail)
    else if dotOk c then (b1innerFind cs).map (fun p => (c :: p.1, p.2))
    else none

/-- The `.+?\)` of branch one (followed by `\]`): at least one `.` char,
then the lazily found `)]`. -/
def b1inner : List Char → Option (List Char × List Char)
  | [] => none
  | c :: cs =>
    if dotOk c then (b1innerFind cs).map (fun p => (c :: p.1, p.2)) else none

/-- After the mandatory first `.` char of branch one: lazily look for a
`(` whose inner part succeeds; on inner failure the `(` is consumed by the
outer `.+?` and the scan continues. -/
def b1outerAux : List Char → Option (List Char × List Char)
  | [] => none
  | c :: cs =>
    if c = '(' then
      match b1inner cs with
      | some p => some ('(' :: p.1, p.2)
      | none =>
        if dotOk c then (b1outerAux cs).map (fun p => (c :: p.1, p.2))
        else none
    else if dotOk c then (b1outerAux cs).map (fun p => (c :: p.1, p.2))
    else none

/-- Branch one `.+?\(.+?\)` (followed by `\]`) applied to the characters
after `\[`: returns the captured group and the remainder after `]`. -/
def b1outer : List Char → Option (List Char × List Char)
  | [] => none
  | c :: cs =>
    if dotOk c then (b1outerAux cs).map (fun p => (c :: p.1, p.2)) else none

/-- Scan of branch two after its mandatory first `.` char: characters up
to the first `]`. -/
def b2aux : List Char → Option (List Char × List Char)
  | [] => none
  | c :: cs =>
    if c = ']' then some ([], cs)
    else if dotOk c then (b2aux cs).map (fun p => (c :: p.1, p.2))
    else none

/-- Branch two `.+?` (followed by `\]`): at least one `.` char, up to the
first `]`. -/
def branch2 : List Char → Option (List Char × List Char)
  | [] => none
  | c :: cs =>
    if dotOk c then (b2aux cs).map (fun p => (c :: p.1, p.2)) else none

/-- The bracket content after a `[`: ordered alternation, branch one
first. -/
def matchContent (cs : List Char) : Option (List Char × List Char) :=
  match b1outer cs with
  | some p => some p
  | none => branch2 cs

/-- `String.prototype.split` with the capturing regex: pieces at even
indices, captured groups at odd indices.  A successful match consumes at
least three characters, so fuel `cs.length` suffices and the fuel-out
case is unreachable. -/
def rxSplitGo : Nat → List Char → List Char → List (List Char)
  | _, [], acc => [acc.reverse]
  | 0, cs, acc => [acc.reverse ++ cs]
  | fuel + 1, c :: rest, acc =>
    if c = '[' then
      match matchContent rest with
      | some (g, rest2) => acc.reverse :: g :: rxSplitGo fuel rest2 []
      | none => rxSplitGo fuel rest (c :: acc)
    else rxSplitGo fuel rest (c :: acc)

/-- `part.split(/\[(.+?\(.+?\)|.+?)\]/)` on the character list. -/
def rxSplit (cs : List Char) : List (List Char) :=
  rxSplitGo cs.length cs []

/-- `/([^(]+)$/.exec(str)`: the maximal nonempty suffix free of `(`,
`none` when that suffix is empty (string empty or ending in `(`). -/
def contentOf (s : List Char) : Option (List Char) :=
  let t := (s.reverse.takeWhile (fun c => c ≠ '(')).reverse
  if t.isEmpty then none else some t

/-- Nonempty and all `[\w$]`. -/
def wordChars (s : List Char) : Bool :=
  !s.isEmpty && s.all wordOk

/-- `/^(?:\.\.\.)?[\w$]+$/.test(content)`: optionally consume a literal
`...` prefix (tried first), then require a nonempty `[\w$]` run. -/
def validIdent (s : List Char) : Bool :=
  match s with
  | '.' :: '.' :: '.' :: rest => wordChars rest || wordChars s
  | _ => wordChars s

/-- `/^\.{3}.+$/.test(content)`: three dots then at least one `.` char. -/
def spreadTest (s : List Char) : Bool :=
  match s with
  | '.' :: '.' :: '.' :: rest => !rest.isEmpty && rest.all dotOk
  | _ => false

/-- The error thrown by `getParts`. -/
def paramError : String := "Parameter name must match /^[a-zA-Z0-9_$]+$/"

/-- The body of the `.map` over split pieces inside `getParts`: empty
pieces are skipped, odd indices are dynamic, and an invalid dynamic name
throws. -/
def partsGo : Nat → List (List Char) → Except String (List RoutePart)
  | _, [] => .ok []
  | i, s :: rest =>
    if s.isEmpty then partsGo (i + 1) rest
    else
      let dynamic : Bool := i % 2 == 1
      match (if dynamic then contentOf s else some s) with
      | none => .error paramError
      | some content =>
        if dynamic ∧ ¬ validIdent content then .error paramError
        else do
          let tail ← partsGo (i + 1) rest
          pure (⟨⟨content⟩, dynamic, dynamic && spreadTest content⟩ :: tail)

/-- `getParts` from `generate-routes.ts`. -/
def getParts (part : String) : Except String (List RoutePart) :=
  partsGo 0 (rxSplit part.data)

/-!
### Pattern compiler
-/

/-- `segmentsToCfSyntax` from `generate-routes.ts`: the early return for
an empty segment list, else the normalized base path followed by one token
pushed per part of `segments.flat()` (a wildcard for dynamic parts, the
literal content otherwise). -/
def segmentsToCfTokens (segments : List (List RoutePart)) (config : Config) :
    List String :=
  if segments.length = 0 then ["", ""]
  else
    segments.flatten.foldl
      (fun acc part => acc ++ [if part.dynamic then "*" else part.content])
      [removeLeadingForwardSlash (removeTrailingForwardSlash config.base)]

/-!
### Specificity comparator
-/

/-- The index loop of the comparator `sort`: equal tokens and differing
literal pairs continue; a wildcard paired with a non-wildcard decides. -/
def sortLoop : List String → List String → Int
  | x :: xs, y :: ys =>
    if x = y then sortLoop xs ys
    else if x = "*" ∧ y ≠ "*" then -1
    else if x ≠ "*" ∧ y = "*" then 1
    else sortLoop xs ys
  | _, _ => 0

/-- The comparator `sort` from `generate-routes.ts`. -/
def sortFn (first second : List String) : Int :=
  if second.length > first.length then -1
  else if first.length > second.length then 1
  else sortLoop first second

/-- Stable insertion of one element into an already sorted list: the new
element goes after every element it does not strictly precede. -/
def insertStable (x : List String) : List (List String) → List (List String)
  | [] => [x]
  | y :: ys => if sortFn x y < 0 then x :: y :: ys else y :: insertStable x ys

/-- `paths.sort(sort)`: JS `Array.prototype.sort` is stable, and for the
consistent comparator `sort` any stable sort yields the same list; a
stable insertion sort models it. -/
def sortPaths (paths : List (List String)) : List (List String) :=
  paths.foldl (fun acc x => insertStable x acc) []

/-!
### Redundancy eliminator

`deduplicateInPlace` builds
`new RegExp(element.join('/').replace(/(\*\/)*\*$/g, '[*\w\/]+') + '$', 'gm')`
and runs `regexp.test(paths[i].join('/'))` over the later paths, splicing
out matches.  The constructed pattern is modelled as a small item
sequence; `test` on a `g`-flagged regex is stateful through `lastIndex`,
which the model threads explicitly.  Path tokens never contain line
terminators, so the `m` flag is inert and `$` is modelled as end of
string; on success `lastIndex` is the match end, i.e. the string length.
-/

/-- Atoms of the constructed pattern. -/
inductive RAtom where
  | lit (c : Char)
  | dot
  | wordSlashStar
deriving DecidableEq, Repr

/-- Items of the constructed pattern: a plain atom or a quantified one. -/
inductive RItem where
  | one (a : RAtom)
  | star (a : RAtom)
  | plus (a : RAtom)
  | opt (a : RAtom)
deriving DecidableEq, Repr

/-- Whether an atom matches a character. -/
def matchAtom : RAtom → Char → Bool
  | .lit c, d => c == d
  | .dot, d => dotOk d
  | .wordSlashStar, d => wordOk d || d == '/' || d == '*'

/-- End-anchored matching of an item sequence against the whole string.
Each step shrinks the measure `s.length + items.length`, so the fuel used
by the callers suffices and the fuel-out case is unreachable. -/
def reMatchEnd : Nat → List RItem → List Char → Bool
  | 0, _, _ => false
  | _ + 1, [], s => s.isEmpty
  | fuel + 1, .one a :: rest, s =>
    match s with
    | [] => false
    | c :: cs => matchAtom a c && reMatchEnd fuel rest cs
  | fuel + 1, .star a :: rest, s =>
    reMatchEnd fuel rest s ||
      match s with
      | [] => false
      | c :: cs => matchAtom a c && reMatchEnd fuel (.star a :: rest) cs
  | fuel + 1, .plus a :: rest, s =>
    match s with
    | [] => false
    | c :: cs => matchAtom a c && reMatchEnd fuel (.star a :: rest) cs
  | fuel + 1, .opt a :: rest, s =>
    reMatchEnd fuel rest s ||
      match s with
      | [] => false
      | c :: cs => matchAtom a c && reMatchEnd fuel rest cs

/-- Is there a match starting at some position at or after `start`? -/
def existsFrom (items : List RItem) (s : List Char) (start : Nat) : Bool :=
  (List.range (s.length + 1 - start)).any fun k =>
    reMatchEnd (s.length + items.length + 1) items (s.drop (start + k))

/-- `regexp.test(str)` for a `g`-flagged regex: search starts at
`lastIndex`; success advances `lastIndex` to the match end, failure
resets it to zero. -/
def testStateful (items : List RItem) (s : List Char) (lastIndex : Nat) :
    Bool × Nat :=
  if s.length < lastIndex then (false, 0)
  else if existsFrom items s lastIndex then (true, s.length) else (false, 0)

/-- Length of the trailing `(\*\/)*\*` run of the joined pattern,
computed on the reversed character list. -/
def starSlashPairs : List Char → Nat
  | '/' :: '*' :: rest => 2 + starSlashPairs rest
  | _ => 0

/-- Trailing-run length on the unreversed string. -/
def trailingRun (cs : List Char) : Nat :=
  match cs.reverse with
  | '*' :: rest => 1 + starSlashPairs rest
  | _ => 0

/-- Compile the non-collapsed prefix of the pattern, character by
character: a quantifier applies to the preceding atom, `.` matches any
character, everything else is a literal.  (Pattern tokens contain no
grouping or class metacharacters.) -/
def compileChars (cs : List Char) : List RItem :=
  (cs.foldl
    (fun acc c =>
      match c, acc with
      | '*', .one a :: tl => .star a :: tl
      | '+', .one a :: tl => .plus a :: tl
      | '?', .one a :: tl => .opt a :: tl
      | '.', _ => .one .dot :: acc
      | _, _ => .one (.lit c) :: acc)
    []).reverse

/-- `element.join('/')`. -/
def joinSlash (p : List String) : String :=
  String.intercalate "/" p

/-- The pattern of `deduplicateInPlace`: the joined element with its
trailing wildcard run collapsed to `[*\w\/]+`, end-anchored. -/
def compilePattern (element : List String) : List RItem :=
  let joined := (joinSlash element).data
  let run := trailingRun joined
  if run = 0 then compileChars joined
  else compileChars (joined.take (joined.length - run)) ++ [.plus .wordSlashStar]

/-- The inner loop of `deduplicateInPlace`: test each later path in turn
against the element's regex, removing matches, with `lastIndex` threaded
across iterations of the one regex object. -/
def dedupScan (items : List RItem) (lastIndex : Nat) :
    List (List String) → List (List String)
  | [] => []
  | p :: ps =>
    match testStateful items (joinSlash p).data lastIndex with
    | (true, li) => dedupScan items li ps
    | (false, li) => p :: dedupScan items li ps

/-- Recursion core of the dedup pass.  `dedupScan` never lengthens the
tail, so fuel equal to the list length suffices and the fuel-out case is
unreachable. -/
def dedupPassGo : Nat → List (List String) → List (List String)
  | _, [] => []
  | 0, ps => ps
  | fuel + 1, p :: ps => p :: dedupPassGo fuel (dedupScan (compilePattern p) 0 ps)

/-- The dedup pass `for (const [index, element] of paths.entries())
deduplicateInPlace(element, index, paths)`: each surviving element scans
the elements after it. -/
def dedupPass (paths : List (List String)) : List (List String) :=
  dedupPassGo paths.length paths

/-!
### Manifest selector (the default export)
-/

/-- The classification loop over `routes`: accumulates `includePaths`,
`excludePaths` and `hasPrerendered404` in source order. -/
def classifyGo (config : Config) :
    List Route → List (List String) → List (List String) → Bool →
      List (List String) × List (List String) × Bool
  | [], inc, exc, h404 => (inc, exc, h404)
  | r :: rs, inc, exc, h404 =>
    let conv := segmentsToCfTokens r.segments config
    let h404 := h404 || (r.pathname == "/404" && r.prerender)
    match r.type with
    | .page =>
      if r.prerender = false then classifyGo config rs (inc ++ [conv]) exc h404
      else classifyGo config rs inc exc h404
    | .endpoint =>
      if r.prerender = false then classifyGo config rs (inc ++ [conv]) exc h404
      else classifyGo config rs inc (exc ++ [conv]) h404
    | .redirect => classifyGo config rs inc (exc ++ [conv]) h404

/-- The route classification of the default export. -/
def classify (config : Config) (routes : List Route) :
    List (List String) × List (List String) × Bool :=
  classifyGo config routes [] [] false

/-- Path-to-segments parsing shared by the pages loop and the static
files loop: strip the leading slash, split on `/`, drop empty pieces,
parse each piece with `getParts` (which may throw). -/
def parsePathSegments (p : String) : Except String (List (List RoutePart)) :=
  (((removeLeadingForwardSlash p).splitOn "/").filter
    (fun s => !s.isEmpty)).mapM (fun s => getParts s)

/-- Platform control files skipped by the static files loop. -/
def reservedFiles : List String := ["_headers", "_redirects", "_routes.json"]

/-- The `_astro`-or-override assets pattern pushed onto `excludePaths`. -/
def assetsPath (config : Config) : List String :=
  segmentsToCfTokens
    [[⟨config.assetsPfx.getD "_astro", false, false⟩], [⟨"", true, false⟩]]
    config

/-- Everything the default export computes before the final decision:
`hasPrerendered404` and the specificity-sorted, deduplicated
`includePaths` and `excludePaths`.  The static file list (produced by the
glob in the source) is an input. -/
def finalState (config : Config) (routes : List Route) (pages : List String)
    (staticFiles : List String) (redirects : List (List (List RoutePart))) :
    Except String (Bool × List (List String) × List (List String)) := do
  let (includePaths, excludePaths, h404) := classify config routes
  let pageExcl ← pages.mapM
    (fun p => do pure (segmentsToCfTokens (← parsePathSegments p) config))
  let staticExcl ← (staticFiles.filter
      (fun f => !reservedFiles.contains f)).mapM
    (fun f => do pure (segmentsToCfTokens (← parsePathSegments f) config))
  let excludePaths := excludePaths ++ pageExcl ++ staticExcl
    ++ [assetsPath config]
    ++ redirects.map (fun r => segmentsToCfTokens r config)
  let includePaths := dedupPass (sortPaths includePaths)
  let excludePaths := dedupPass (sortPaths excludePaths)
  pure (h404, includePaths, excludePaths)

/-- The final decision of the default export: exclude-mode, include-mode,
or (in the unhandled tie case) no manifest written. -/
def manifestDecision (h404 : Bool) (includePaths excludePaths : List (List String)) :
    Option Manifest :=
  if h404 = false ∨ includePaths.length > 100
      ∨ includePaths.length > excludePaths.length then
    some ⟨1, ["/*"], ((excludePaths.map joinSlash).take 99)⟩
  else if includePaths.length < excludePaths.length then
    some ⟨1, includePaths.map joinSlash, []⟩
  else none

/-- The default export of `generate-routes.ts`, with the written
`_routes.json` modelled as the returned manifest value. -/
def generateRoutes (config : Config) (routes : List Route) (pages : List String)
    (staticFiles : List String) (redirects : List (List (List RoutePart))) :
    Except String (Option Manifest) :=
  (finalState config routes pages staticFiles redirects).map
    (fun s => manifestDecision s.1 s.2.1 s.2.2)

/-!
### Supporting lemmas
-/

/-- Pushing one image at a time onto an accumulator is `map`. -/
theorem foldl_push_map {α β : Type} (f : α → β) :
    ∀ (l : List α) (init : List β),
      l.foldl (fun acc x => acc ++ [f x]) init = init ++ l.map f := by
  intro l
  induction l with
  | nil => intro init; simp
  | cons x xs ih => intro init; simp [ih]

/-- The `hasPrerendered404` component of the classification loop. -/
theorem classifyGo_h404 (config : Config) :
    ∀ (rs : List Route) (inc exc : List (List String)) (b : Bool),
      (classifyGo config rs inc exc b).2.2
        = (b || rs.any (fun r => r.pathname == "/404" && r.prerender)) := by
  intro rs
  induction rs with
  | nil => intro inc exc b; simp [classifyGo]
  | cons r rs ih =>
    intro inc exc b
    obtain ⟨segs, ty, pre, pn⟩ := r
    cases ty <;> cases pre <;> simp [classifyGo, ih, Bool.or_assoc]

end CFRoutes

namespace CFRoutes

/-!
### Claim theorems
-/

/-- Claim C3 counterexample: for the single segment `user-[id]` (a
literal part followed by a dynamic part), the pattern compiler emits two
tokens after the base token — the literal sub-part is preserved and the
segment does not collapse to a single wildcard, contradicting "exactly
one token per segment". -/
theorem claim_C3_counterexample :
    segmentsToCfTokens [[⟨"user-", false, false⟩, ⟨"id", true, false⟩]] ⟨"", none⟩
        = ["", "user-", "*"]
      ∧ (segmentsToCfTokens [[⟨"user-", false, false⟩, ⟨"id", true, false⟩]]
          ⟨"", none⟩).length ≠ 2 :=
  ⟨rfl, by decide⟩

/-- Claim C3 (amended): for every non-empty segment list, the pattern
compiler emits, after the base-path token, exactly one token per part of
the flattened segment list: a wildcard token for each dynamic part and
the part's literal content for each non-dynamic part (so a segment
mixing literal and dynamic parts yields several tokens). -/
theorem claim_C3_amended (segments : List (List RoutePart)) (config : Config)
    (h : segments ≠ []) :
    segmentsToCfTokens segments config
      = removeLeadingForwardSlash (removeTrailingForwardSlash config.base)
          :: segments.flatten.map (fun p => if p.dynamic then "*" else p.content) := by
  unfold segmentsToCfTokens
  rw [if_neg (by simpa using h), foldl_push_map]
  simp

/-- Claim C3 witness: the amended statement at the concrete two-segment
route `posts/[id]` with empty base path. -/
theorem claim_C3_witness :
    ([[(⟨"posts", false, false⟩ : RoutePart)], [⟨"id", true, false⟩]]
        : List (List RoutePart)) ≠ []
      ∧ segmentsToCfTokens [[⟨"posts", false, false⟩], [⟨"id", true, false⟩]]
          ⟨"", none⟩
        = removeLeadingForwardSlash (removeTrailingForwardSlash "")
            :: ([[(⟨"posts", false, false⟩ : RoutePart)], [⟨"id", true, false⟩]]
              : List (List RoutePart)).flatten.map
              (fun p => if p.dynamic then "*" else p.content) :=
  ⟨by decide, claim_C3_amended _ _ (by decide)⟩

/-- Claim C7 counterexample: with base path "docs", compiling the empty
segment list returns two empty tokens; the first token is not the
normalized base path "docs". -/
theorem claim_C7_counterexample :
    segmentsToCfTokens [] ⟨"docs", none⟩ = ["", ""]
      ∧ removeLeadingForwardSlash (removeTrailingForwardSlash "docs") = "docs"
      ∧ ("docs" : String) ≠ "" :=
  ⟨rfl, rfl, by decide⟩

/-- Claim C7 (amended): for every base path, compiling an empty segment
list returns the fixed two-token sequence of two empty literals; the
base path is not consulted in this case. -/
theorem claim_C7_amended (config : Config) :
    segmentsToCfTokens [] config = ["", ""] := rfl

/-- Claim C6 counterexample: the segment parser accepts `[1abc]` — the
grammar `[A-Za-z0-9_$]+` admits an identifier starting with a digit — and
returns a dynamic part instead of raising `MalformedParameterError`. -/
theorem claim_C6_counterexample :
    getParts "[1abc]" = .ok [⟨"1abc", true, false⟩] := rfl

/-- Claim C6 (amended): the segment parser raises
`MalformedParameterError` for `[..x]` (two-dot spread marker), while
`[1abc]` parses successfully as a dynamic part with content "1abc". -/
theorem claim_C6_amended :
    getParts "[..x]" = .error paramError
      ∧ getParts "[1abc]" = .ok [⟨"1abc", true, false⟩] :=
  ⟨rfl, rfl⟩

/-- Claim C4: evaluation of the dedup pass at the specificity-sorted list
`[["a"], ["xa"], ["a"]]` (the list is a fixed point of the sort).  The
`g`-flagged regex keeps its `lastIndex` after matching "xa", so the test
of the final duplicate "a" starts beyond the string's end and fails: the
elementwise duplicate of the first pattern survives the pass. -/
theorem claim_C4_code_evaluation :
    sortPaths [["a"], ["xa"], ["a"]] = [["a"], ["xa"], ["a"]]
      ∧ dedupPass [["a"], ["xa"], ["a"]] = [["a"], ["a"]] :=
  ⟨rfl, rfl⟩

/-- Claim C5: the dedup pass is not idempotent on the specificity-sorted
list `[["a"], ["xa"], ["a"]]`: one pass leaves `[["a"], ["a"]]` (the
stateful `lastIndex` skips the duplicate), and a second pass removes the
duplicate, producing `[["a"]]`. -/
theorem claim_C5_code_evaluation :
    dedupPass (dedupPass [["a"], ["xa"], ["a"]])
        = [["a"]]
      ∧ dedupPass [["a"], ["xa"], ["a"]] = [["a"], ["a"]]
      ∧ dedupPass (dedupPass [["a"], ["xa"], ["a"]])
          ≠ dedupPass [["a"], ["xa"], ["a"]] :=
  ⟨rfl, rfl, by decide⟩

/-- Along two token-prefixes agreeing on wildcard positions, the loop
decides -1 at the first pair with a wildcard on the left only. -/
theorem sortLoop_wild_left {p₁ p₂ : List String}
    (hp : List.Forall₂ (fun a b => (a = "*" ↔ b = "*")) p₁ p₂) :
    ∀ (s₁ s₂ : List String) (y : String), y ≠ "*" →
      sortLoop (p₁ ++ "*" :: s₁) (p₂ ++ y :: s₂) = -1 := by
  induction hp with
  | nil =>
    intro s₁ s₂ y hy
    simp only [List.nil_append, sortLoop]
    split_ifs <;> simp_all
  | @cons a b l₁ l₂ hab htail ih =>
    intro s₁ s₂ y hy
    simp only [List.cons_append, sortLoop]
    by_cases heq : a = b
    · rw [if_pos heq]; exact ih s₁ s₂ y hy
    · rw [if_neg heq, if_neg (fun h => h.2 (hab.mp h.1)),
        if_neg (fun h => h.1 (hab.mpr h.2))]
      exact ih s₁ s₂ y hy

/-- Mirror of `sortLoop_wild_left`: +1 with the wildcard on the right. -/
theorem sortLoop_wild_right {p₁ p₂ : List String}
    (hp : List.Forall₂ (fun a b => (a = "*" ↔ b = "*")) p₁ p₂) :
    ∀ (s₁ s₂ : List String) (y : String), y ≠ "*" →
      sortLoop (p₂ ++ y :: s₂) (p₁ ++ "*" :: s₁) = 1 := by
  induction hp with
  | nil =>
    intro s₁ s₂ y hy
    simp only [List.nil_append, sortLoop]
    split_ifs <;> simp_all
  | @cons a b l₁ l₂ hab htail ih =>
    intro s₁ s₂ y hy
    simp only [List.cons_append, sortLoop]
    by_cases heq : b = a
    · rw [if_pos heq]; exact ih s₁ s₂ y hy
    · rw [if_neg heq, if_neg (fun h => h.2 (hab.mpr h.1)),
        if_neg (fun h => h.1 (hab.mp h.2))]
      exact ih s₁ s₂ y hy

/-- Claim C2 counterexample: on the pair from the claim, the comparator
returns 1 for (literal, wildcard) — the literal-bearing sequence sorts
after, not before, the wildcard-bearing one. -/
theorem claim_C2_counterexample :
    sortFn ["/a", "b"] ["/a", "*"] ≠ -1
      ∧ sortFn ["/a", "b"] ["/a", "*"] = 1
      ∧ sortFn ["/a", "*"] ["/a", "b"] = -1 := by
  refine ⟨by decide, rfl, rfl⟩

/-- Claim C2 (amended): for equal-length token sequences, the comparator
scans left to right, skipping positions where the tokens agree on being
or not being the wildcard; at the first position where exactly one token
is the wildcard, the wildcard-bearing sequence sorts before the
literal-bearing one (in particular ["/a", "*"] sorts before
["/a", "b"]). -/
theorem claim_C2_amended (p₁ p₂ s₁ s₂ : List String) (y : String)
    (hp : List.Forall₂ (fun a b => (a = "*" ↔ b = "*")) p₁ p₂)
    (hs : s₁.length = s₂.length) (hy : y ≠ "*") :
    sortFn (p₁ ++ "*" :: s₁) (p₂ ++ y :: s₂) = -1
      ∧ sortFn (p₂ ++ y :: s₂) (p₁ ++ "*" :: s₁) = 1 := by
  have hlen : p₁.length = p₂.length := hp.length_eq
  have hfull : (p₁ ++ "*" :: s₁).length = (p₂ ++ y :: s₂).length := by
    simp [hlen, hs]
  constructor
  · unfold sortFn
    rw [if_neg (by omega), if_neg (by omega)]
    exact sortLoop_wild_left hp s₁ s₂ y hy
  · unfold sortFn
    rw [if_neg (by omega), if_neg (by omega)]
    exact sortLoop_wild_right hp s₁ s₂ y hy

/-- Claim C2 witness: the amended statement at the concrete pair
(["/a", "*"], ["/a", "b"]). -/
theorem claim_C2_witness :
    sortFn (["/a"] ++ "*" :: []) (["/a"] ++ "b" :: []) = -1
      ∧ sortFn (["/a"] ++ "b" :: []) (["/a"] ++ "*" :: []) = 1 :=
  claim_C2_amended ["/a"] ["/a"] [] [] "b"
    (List.Forall₂.cons Iff.rfl List.Forall₂.nil) rfl (by decide)

/-- Transitivity of -1 for the comparator's index loop on equal-length
lists. -/
theorem sortLoop_trans_neg :
    ∀ (a b c : List String), a.length = b.length → b.length = c.length →
      sortLoop a b = -1 → sortLoop b c = -1 → sortLoop a c = -1 := by
  intro a
  induction a with
  | nil =>
    intro b c hab hbc h1 h2
    have hb : b = [] := List.length_eq_zero.mp hab.symm
    subst hb
    simp [sortLoop] at h1
  | cons x xs ih =>
    intro b c hab hbc h1 h2
    match b, c with
    | [], _ => simp at hab
    | _ :: _, [] => simp at hbc
    | y :: ys, z :: zs =>
      have hab' : xs.length = ys.length := by simpa using hab
      have hbc' : ys.length = zs.length := by simpa using hbc
      simp only [sortLoop] at h1 h2 ⊢
      split_ifs at h1 h2 ⊢ <;>
        first
          | rfl
          | omega
          | exact ih ys zs hab' hbc' h1 h2
          | simp_all

/-- Transitivity of 0 (incomparability) for the comparator's index loop
on equal-length lists. -/
theorem sortLoop_trans_zero :
    ∀ (a b c : List String), a.length = b.length → b.length = c.length →
      sortLoop a b = 0 → sortLoop b c = 0 → sortLoop a c = 0 := by
  intro a
  induction a with
  | nil =>
    intro b c hab hbc h1 h2
    have hb : b = [] := List.length_eq_zero.mp hab.symm
    have hc : c = [] := List.length_eq_zero.mp (hab ▸ hbc).symm
    subst hb; subst hc
    rfl
  | cons x xs ih =>
    intro b c hab hbc h1 h2
    match b, c with
    | [], _ => simp at hab
    | _ :: _, [] => simp at hbc
    | y :: ys, z :: zs =>
      have hab' : xs.length = ys.length := by simpa using hab
      have hbc' : ys.length = zs.length := by simpa using hbc
      simp only [sortLoop] at h1 h2 ⊢
      split_ifs at h1 h2 ⊢ <;>
        first
          | rfl
          | omega
          | exact ih ys zs hab' hbc' h1 h2
          | simp_all

/-- Claim C9: the comparator is a strict weak ordering: strict
precedence (-1) is transitive, and incomparability (0) is transitive. -/
theorem claim_C9_strict_weak_order (a b c : List String) :
    (sortFn a b = -1 → sortFn b c = -1 → sortFn a c = -1)
      ∧ (sortFn a b = 0 → sortFn b c = 0 → sortFn a c = 0) := by
  unfold sortFn
  constructor <;> intro h1 h2 <;> split_ifs at h1 h2 ⊢ <;>
    first
      | rfl
      | omega
      | exact sortLoop_trans_neg a b c (by omega) (by omega) h1 h2
      | exact sortLoop_trans_zero a b c (by omega) (by omega) h1 h2

/-- Claim C9 witness: transitivity of -1 on a concrete chain of three
sequences, and transitivity of 0 on a concrete incomparable triple. -/
theorem claim_C9_witness :
    (sortFn ["a"] ["a", "b"] = -1 ∧ sortFn ["a", "b"] ["a", "b", "c"] = -1
        ∧ sortFn ["a"] ["a", "b", "c"] = -1)
      ∧ (sortFn ["a", "b"] ["c", "d"] = 0 ∧ sortFn ["c", "d"] ["e", "f"] = 0
        ∧ sortFn ["a", "b"] ["e", "f"] = 0) :=
  ⟨⟨rfl, rfl, (claim_C9_strict_weak_order ["a"] ["a", "b"] ["a", "b", "c"]).1 rfl rfl⟩,
   ⟨rfl, rfl, (claim_C9_strict_weak_order ["a", "b"] ["c", "d"] ["e", "f"]).2 rfl rfl⟩⟩

/-- Claim C10: `hasPrerendered404` is true exactly when some route has
pathname "/404" and `prerender = true`, with no condition on the route's
type. -/
theorem claim_C10_prerendered404 (config : Config) (routes : List Route) :
    (classify config routes).2.2 = true
      ↔ ∃ r ∈ routes, r.pathname = "/404" ∧ r.prerender = true := by
  unfold classify
  rw [classifyGo_h404]
  simp [List.any_eq_true]

/-!
### Lemmas for the spread-parameter behaviour of the parser
-/

/-- A nonempty list is not `isEmpty`. -/
theorem ne_nil_isEmpty {α : Type} {l : List α} (h : l ≠ []) :
    l.isEmpty = false := by
  cases l with
  | nil => exact absurd rfl h
  | cons x xs => rfl

/-- Word characters are neither parentheses nor brackets nor line
terminators. -/
theorem wordOk_facts {c : Char} (h : wordOk c = true) :
    c ≠ '(' ∧ c ≠ ']' ∧ dotOk c = true := by
  refine ⟨fun hc => absurd (hc ▸ h) (by decide),
    fun hc => absurd (hc ▸ h) (by decide), ?_⟩
  by_cases e1 : c = '\n'
  · exact absurd (e1 ▸ h) (by decide)
  by_cases e2 : c = '\r'
  · exact absurd (e2 ▸ h) (by decide)
  by_cases e3 : c = Char.ofNat 0x2028
  · exact absurd (e3 ▸ h) (by decide)
  by_cases e4 : c = Char.ofNat 0x2029
  · exact absurd (e4 ▸ h) (by decide)
  simp [dotOk, e1, e2, e3, e4]

/-- Branch one never fires without an opening parenthesis in sight. -/
theorem b1outerAux_none : ∀ {cs : List Char}, '(' ∉ cs → b1outerAux cs = none := by
  intro cs
  induction cs with
  | nil => intro _; rfl
  | cons c cs ih =>
    intro h
    rw [List.mem_cons] at h
    push_neg at h
    show (if c = '(' then
        match b1inner cs with
        | some p => some ('(' :: p.1, p.2)
        | none =>
          if dotOk c = true then (b1outerAux cs).map (fun p => (c :: p.1, p.2))
          else none
      else if dotOk c = true then (b1outerAux cs).map (fun p => (c :: p.1, p.2))
      else none) = none
    rw [if_neg (fun hc => h.1 hc.symm)]
    split_ifs with hdot
    · rw [ih h.2]; rfl
    · rfl

/-- Branch one fails outright on parenthesis-free input. -/
theorem b1outer_none {cs : List Char} (h : '(' ∉ cs) : b1outer cs = none := by
  cases cs with
  | nil => rfl
  | cons c cs =>
    rw [List.mem_cons] at h
    push_neg at h
    show (if dotOk c = true then (b1outerAux cs).map (fun p => (c :: p.1, p.2))
      else none) = none
    split_ifs with hdot
    · rw [b1outerAux_none h.2]; rfl
    · rfl

/-- Branch two's scan consumes exactly up to the first `]`. -/
theorem b2aux_append :
    ∀ (a r : List Char), ']' ∉ a → (∀ c ∈ a, dotOk c = true) →
      b2aux (a ++ ']' :: r) = some (a, r) := by
  intro a
  induction a with
  | nil =>
    intro r _ _
    rfl
  | cons c a ih =>
    intro r h1 h2
    rw [List.mem_cons] at h1
    push_neg at h1
    show (if c = ']' then some ([], a ++ ']' :: r)
      else if dotOk c = true then
        (b2aux (a ++ ']' :: r)).map (fun p => (c :: p.1, p.2))
      else none) = some (c :: a, r)
    rw [if_neg (fun hc => h1.1 hc.symm),
      if_pos (h2 c (List.mem_cons_self c a)),
      ih r h1.2 (fun x hx => h2 x (List.mem_cons_of_mem c hx))]
    rfl

/-- The bracket content of a spread parameter `[...name]` matches as
branch two, capturing the dots and the name. -/
theorem matchContent_spread (nd : List Char)
    (h2 : ∀ c ∈ nd, wordOk c = true) :
    matchContent ('.' :: '.' :: '.' :: (nd ++ [']']))
      = some ('.' :: '.' :: '.' :: nd, []) := by
  have hnp : '(' ∉ ('.' :: '.' :: '.' :: (nd ++ [']'])) := by
    simp only [List.mem_cons, List.mem_append, List.mem_singleton]
    push_neg
    refine ⟨by decide, by decide, by decide, fun hmem => ?_, by decide⟩
    exact absurd (h2 _ hmem) (by decide)
  unfold matchContent
  rw [b1outer_none hnp]
  show Option.map (fun p => (('.' : Char) :: p.1, p.2))
      (b2aux ('.' :: '.' :: (nd ++ [']']))) = _
  have hshape : ('.' :: '.' :: (nd ++ [']'])) = (('.' :: '.' :: nd) ++ (']' :: [])) := by
    simp
  rw [hshape, b2aux_append ('.' :: '.' :: nd) []
    (by
      simp only [List.mem_cons]
      push_neg
      refine ⟨by decide, by decide, fun hmem => ?_⟩
      exact (wordOk_facts (h2 _ hmem)).2.1 rfl)
    (by
      intro x hx
      rcases List.mem_cons.mp hx with h' | hx'
      · subst h'; rfl
      rcases List.mem_cons.mp hx' with h' | hx''
      · subst h'; rfl
      · exact (wordOk_facts (h2 x hx'')).2.2)]
  rfl

/-- Step equation of the split scan. -/
theorem rxSplitGo_cons (fuel : Nat) (c : Char) (rest acc : List Char) :
    rxSplitGo (fuel + 1) (c :: rest) acc =
      if c = '[' then
        match matchContent rest with
        | some (g, rest2) => acc.reverse :: g :: rxSplitGo fuel rest2 []
        | none => rxSplitGo fuel rest (c :: acc)
      else rxSplitGo fuel rest (c :: acc) := rfl

/-- Terminal equation of the split scan. -/
theorem rxSplitGo_nil (fuel : Nat) (acc : List Char) :
    rxSplitGo fuel [] acc = [acc.reverse] := by
  cases fuel <;> rfl

/-- Splitting `[...name]` produces an empty piece, the captured group
`...name`, and an empty piece. -/
theorem rxSplit_spread (nd : List Char) (h2 : ∀ c ∈ nd, wordOk c = true) :
    rxSplit ('[' :: '.' :: '.' :: '.' :: (nd ++ [']']))
      = [[], '.' :: '.' :: '.' :: nd, []] := by
  unfold rxSplit
  have hlen : ('[' :: '.' :: '.' :: '.' :: (nd ++ [']'])).length
      = (nd.length + 4) + 1 := by
    simp only [List.length_cons, List.length_append, List.length_nil]
  rw [hlen, rxSplitGo_cons, if_pos rfl, matchContent_spread nd h2]
  show [].reverse :: ('.' :: '.' :: '.' :: nd) :: rxSplitGo (nd.length + 4) [] [] = _
  rw [rxSplitGo_nil]
  simp

/-- `/([^(]+)$/` on a parenthesis-free nonempty string captures the whole
string. -/
theorem contentOf_eval (s : List Char) (hne : s ≠ []) (h : ∀ c ∈ s, c ≠ '(') :
    contentOf s = some s := by
  have htw : s.reverse.takeWhile (fun c => c ≠ '(') = s.reverse := by
    rw [List.takeWhile_eq_self_iff]
    intro x hx
    simpa using h x (List.mem_reverse.mp hx)
  simp only [contentOf, htw, List.reverse_reverse, ne_nil_isEmpty hne]
  rfl

/-- Bind on a successful `Except` computation. -/
theorem except_bind_ok {ε α β : Type} (a : α) (f : α → Except ε β) :
    (Except.ok a >>= f : Except ε β) = f a := rfl

/-- `pure` for `Except` is `ok`. -/
theorem except_pure {ε α : Type} (a : α) :
    (pure a : Except ε α) = Except.ok a := rfl

end CFRoutes

namespace CFRoutes

/-- Claim C8 counterexample: for `[...slug]` the parser yields a spread
dynamic part whose content keeps the three leading dots — it is
"...slug", not the bare name "slug". -/
theorem claim_C8_counterexample :
    getParts "[...slug]" = .ok [⟨"...slug", true, true⟩]
      ∧ ("...slug" : String) ≠ "slug" :=
  ⟨rfl, by decide⟩

/-- Claim C8 (amended): for every segment `[...name]` whose name is a
nonempty run of `[A-Za-z0-9_$]` characters, the parser yields exactly one
part with `spread = true`, `dynamic = true`, and content equal to the
bracket content including the three leading dots, i.e. "..." ++ name. -/
theorem claim_C8_amended (name : String) (h1 : name.data ≠ [])
    (h2 : ∀ c ∈ name.data, wordOk c = true) :
    getParts ("[..." ++ name ++ "]") = .ok [⟨"..." ++ name, true, true⟩] := by
  obtain ⟨nd⟩ := name
  have h1' : nd ≠ [] := h1
  have h2' : ∀ c ∈ nd, wordOk c = true := h2
  have hdata : ("[..." ++ String.mk nd ++ "]" : String).data
      = '[' :: '.' :: '.' :: '.' :: (nd ++ [']']) := rfl
  have hstr : ("..." ++ String.mk nd : String) = ⟨'.' :: '.' :: '.' :: nd⟩ := rfl
  have hg : ('.' :: '.' :: '.' :: nd) ≠ ([] : List Char) := by
    intro hc; cases hc
  have hwc : wordChars nd = true := by
    unfold wordChars
    rw [ne_nil_isEmpty h1']
    simp only [Bool.not_false, Bool.true_and, List.all_eq_true]
    exact h2'
  have hvi : validIdent ('.' :: '.' :: '.' :: nd) = true := by
    show (wordChars nd || wordChars ('.' :: '.' :: '.' :: nd)) = true
    rw [hwc]
    rfl
  have hst : spreadTest ('.' :: '.' :: '.' :: nd) = true := by
    show (!nd.isEmpty && nd.all dotOk) = true
    rw [ne_nil_isEmpty h1']
    simp only [Bool.not_false, Bool.true_and, List.all_eq_true]
    exact fun c hc => (wordOk_facts (h2' c hc)).2.2
  have hco : contentOf ('.' :: '.' :: '.' :: nd) = some ('.' :: '.' :: '.' :: nd) := by
    refine contentOf_eval _ hg ?_
    intro x hx
    rcases List.mem_cons.mp hx with h' | hx'
    · subst h'; decide
    rcases List.mem_cons.mp hx' with h' | hx''
    · subst h'; decide
    rcases List.mem_cons.mp hx'' with h' | hx'''
    · subst h'; decide
    · exact (wordOk_facts (h2' x hx''')).1
  unfold getParts
  rw [hdata, rxSplit_spread nd h2']
  simp [partsGo, hco, hvi, hst, hstr, except_bind_ok, except_pure]

/-- Claim C8 witness: the amended statement at the concrete name
"slug". -/
theorem claim_C8_witness :
    getParts ("[..." ++ "slug" ++ "]") = .ok [⟨"..." ++ "slug", true, true⟩] :=
  claim_C8_amended "slug" (by decide) (by decide)

/-- Claim C1: whenever `hasPrerendered404` is false, or the deduplicated
include list has more than 100 entries, or it has more entries than the
deduplicated exclude list, the selector emits the exclude-mode manifest:
include exactly `["/*"]` and exclude the first 99 deduplicated exclude
paths, each joined with "/". -/
theorem claim_C1_exclude_mode (config : Config) (routes : List Route)
    (pages staticFiles : List String) (redirects : List (List (List RoutePart)))
    (h404 : Bool) (incl excl : List (List String))
    (hfs : finalState config routes pages staticFiles redirects
      = .ok (h404, incl, excl))
    (hcond : h404 = false ∨ incl.length > 100 ∨ incl.length > excl.length) :
    generateRoutes config routes pages staticFiles redirects
      = .ok (some ⟨1, ["/*"], (excl.map joinSlash).take 99⟩) := by
  unfold generateRoutes
  rw [hfs]
  show Except.ok (manifestDecision h404 incl excl) = _
  unfold manifestDecision
  rw [if_pos hcond]

/-- Claim C1 witness: with no routes at all, `hasPrerendered404` is
false; the only exclude path is the assets pattern, and the emitted
manifest is exclude-mode. -/
theorem claim_C1_witness :
    finalState ⟨"", none⟩ [] [] [] [] = .ok (false, [], [["", "_astro", "*"]])
      ∧ generateRoutes ⟨"", none⟩ [] [] [] []
          = .ok (some ⟨1, ["/*"], (([["", "_astro", "*"]].map joinSlash)).take 99⟩) :=
  ⟨rfl, claim_C1_exclude_mode _ _ _ _ _ _ _ _ rfl (Or.inl rfl)⟩

end CFRoutes



